import Mathlib

/-!
Verification of the snow-history analysis program (`sneeuwhistorie.py`).

The development shallowly embeds the program's core: the proleptic Gregorian
calendar arithmetic used through Python's `datetime` module, the seasonal
ordinal calculator `get_seasonal_ordinal`, the season labelling and record
engine `calculate_snow_records` (pandas pipeline), and the chunked fetch
loop `get_all_historical_data`.  Dates are triples (year, month, day) with
`year : Int` (the proleptic Gregorian calendar, abstracting Python's
1..9999 year bound); snow depths are rationals (the program's decimal
centimetre values, compared and maximised exactly).
-/

/-- Leap-year test of the proleptic Gregorian calendar, as used by Python's
`datetime`/`calendar` modules: divisible by 4 and (not by 100 or by 400).
`Int.emod` agrees with Python's `%` (result has the divisor's sign). -/
def isLeap (y : Int) : Bool :=
  y % 4 == 0 && (y % 100 != 0 || y % 400 == 0)

/-- Length in days of month `m` (1..12) of year `y`, as in `datetime`.
Months outside 1..12 are given a junk value of 31; validity excludes them. -/
def monthLength (y : Int) (m : Nat) : Nat :=
  match m with
  | 2 => if isLeap y then 29 else 28
  | 4 => 30
  | 6 => 30
  | 9 => 30
  | 11 => 30
  | _ => 31

/-- Number of days of year `y` that precede month `m`: the cumulative month
lengths Jan..(m-1), with the leap day counted from March on. -/
def daysBeforeMonth (y : Int) (m : Nat) : Nat :=
  (match m with
   | 1 => 0
   | 2 => 31
   | 3 => 59
   | 4 => 90
   | 5 => 120
   | 6 => 151
   | 7 => 181
   | 8 => 212
   | 9 => 243
   | 10 => 273
   | 11 => 304
   | _ => 334)
  + (if 3 ≤ m ∧ isLeap y then 1 else 0)

/-- A calendar date as Python's `datetime.date` holds it: year, month, day. -/
structure Date where
  year : Int
  month : Nat
  day : Nat
deriving DecidableEq, Repr

/-- Validity of a date: the constraint `datetime.date` enforces on its
components (month 1..12, day 1..length of the month). -/
def Date.Valid (d : Date) : Prop :=
  1 ≤ d.month ∧ d.month ≤ 12 ∧ 1 ≤ d.day ∧ d.day ≤ monthLength d.year d.month

instance (d : Date) : Decidable d.Valid := by
  unfold Date.Valid; infer_instance

/-- Day-of-year ordinal, as returned by `date.timetuple().tm_yday`
(Jan 1 is day 1). -/
def dayOfYear (d : Date) : Nat :=
  daysBeforeMonth d.year d.month + d.day

/-- Number of days in year `y` (365, or 366 in a leap year). -/
def daysInYear (y : Int) : Nat :=
  if isLeap y then 366 else 365

/-- The `datetime.date` constructor: `some` of the date when the components
are valid, `none` modelling the `ValueError` it raises otherwise. -/
def mkDate (y : Int) (m d : Nat) : Option Date :=
  if (Date.mk y m d).Valid then some (Date.mk y m d) else none

/-- Embedding of `get_seasonal_ordinal` (src/sneeuwhistorie.py:120-144).
The `match` models the `try/except ValueError` around
`datetime.date(date.year, 6, 30)`: the `none` arm is the `except` fallback
`date.replace(month=6, day=30)` (which computes the same June-30 ordinal).
Month ≥ 7 gives day-of-year minus the June-30 ordinal; otherwise the
day-of-year plus the previous year's second-half day count is returned. -/
def getSeasonalOrdinal (date : Date) : Int :=
  let jun30ord : Nat :=
    match mkDate date.year 6 30 with
    | some j => dayOfYear j
    | none => dayOfYear (Date.mk date.year 6 30)
  if 7 ≤ date.month then
    (dayOfYear date : Int) - (jun30ord : Int)
  else
    let prevYear := date.year - 1
    let prevDec31 := dayOfYear (Date.mk prevYear 12 31)
    let prevJun30 := dayOfYear (Date.mk prevYear 6 30)
    (dayOfYear date : Int) + ((prevDec31 : Int) - (prevJun30 : Int))

/-- Season start year of a date, as computed by the record engine
(`temp_df.index.year.where(temp_df.index.month >= 7, temp_df.index.year - 1)`,
src/sneeuwhistorie.py:158): the date's year for months July..December,
the previous year for January..June. -/
def seasonStartYear (d : Date) : Int :=
  if 7 ≤ d.month then d.year else d.year - 1

-- ### Basic calendar lemmas

theorem mkDate_jun30 (y : Int) : mkDate y 6 30 = some (Date.mk y 6 30) := by
  simp [mkDate, Date.Valid, monthLength]

theorem dayOfYear_jun30 (y : Int) :
    dayOfYear (Date.mk y 6 30) = 181 + (if isLeap y then 1 else 0) := by
  simp only [dayOfYear, daysBeforeMonth]
  rcases h : isLeap y <;> simp [h]

theorem dayOfYear_dec31 (y : Int) :
    dayOfYear (Date.mk y 12 31) = daysInYear y := by
  simp only [dayOfYear, daysBeforeMonth, daysInYear]
  rcases h : isLeap y <;> simp [h]

/-- Unfolding of `getSeasonalOrdinal`: the `try` branch always supplies the
June-30 ordinal (June 30 is a valid date of every year). -/
theorem getSeasonalOrdinal_def (d : Date) :
    getSeasonalOrdinal d =
      if 7 ≤ d.month then
        (dayOfYear d : Int) - (dayOfYear (Date.mk d.year 6 30) : Int)
      else
        (dayOfYear d : Int) +
          ((dayOfYear (Date.mk (d.year - 1) 12 31) : Int) -
            (dayOfYear (Date.mk (d.year - 1) 6 30) : Int)) := by
  unfold getSeasonalOrdinal
  rw [mkDate_jun30]

theorem one_le_monthLength (y : Int) (m : Nat) : 1 ≤ monthLength y m := by
  unfold monthLength
  split <;> first | omega | (split <;> omega)

theorem daysBeforeMonth_succ (y : Int) {m : Nat} (h1 : 1 ≤ m) (h2 : m ≤ 11) :
    daysBeforeMonth y (m + 1) = daysBeforeMonth y m + monthLength y m := by
  interval_cases m <;>
    rcases h : isLeap y <;>
      simp [daysBeforeMonth, monthLength, h]

theorem daysBeforeMonth_gap (y : Int) {m1 m2 : Nat} (h1 : 1 ≤ m1)
    (h : m1 < m2) (h2 : m2 ≤ 12) :
    daysBeforeMonth y m1 + monthLength y m1 ≤ daysBeforeMonth y m2 := by
  have h11 : m1 ≤ 11 := by omega
  interval_cases m1 <;> interval_cases m2 <;>
    rcases hl : isLeap y <;>
      simp [daysBeforeMonth, monthLength, hl]

theorem dayOfYear_lt {d1 d2 : Date} (v1 : d1.Valid) (v2 : d2.Valid)
    (hy : d1.year = d2.year)
    (h : d1.month < d2.month ∨ (d1.month = d2.month ∧ d1.day < d2.day)) :
    dayOfYear d1 < dayOfYear d2 := by
  obtain ⟨hm1, hm1', hd1, hd1'⟩ := v1
  obtain ⟨hm2, hm2', hd2, hd2'⟩ := v2
  rcases h with h | ⟨hm, hd⟩
  · have hgap := daysBeforeMonth_gap d1.year hm1 h (by omega)
    unfold dayOfYear
    rw [← hy] at *
    omega
  · unfold dayOfYear
    rw [← hy, hm] at *
    omega

theorem dayOfYear_le_daysInYear {d : Date} (v : d.Valid) :
    dayOfYear d ≤ daysInYear d.year := by
  obtain ⟨hm1, hm2, hd1, hd2⟩ := v
  unfold dayOfYear daysInYear
  interval_cases h : d.month <;>
    rcases hl : isLeap d.year <;>
      simp_all [daysBeforeMonth, monthLength, hl] <;> omega

theorem one_le_dayOfYear {d : Date} (v : d.Valid) : 1 ≤ dayOfYear d := by
  obtain ⟨_, _, hd1, _⟩ := v
  unfold dayOfYear
  omega

theorem dayOfYear_ge_july {d : Date} (v : d.Valid) (h7 : 7 ≤ d.month) :
    daysBeforeMonth d.year 7 + 1 ≤ dayOfYear d := by
  obtain ⟨hm1, hm2, hd1, hd2⟩ := v
  unfold dayOfYear
  rcases Nat.eq_or_lt_of_le h7 with he | hlt
  · rw [← he]; omega
  · have := daysBeforeMonth_gap d.year (by omega : 1 ≤ 7) hlt hm2
    omega

theorem daysBeforeMonth_july (y : Int) :
    daysBeforeMonth y 7 = dayOfYear (Date.mk y 6 30) := by
  rw [dayOfYear_jun30]
  rcases h : isLeap y <;> simp [daysBeforeMonth, h]

/-- C1: for every valid date `d`, `get_seasonal_ordinal d` equals the
day-of-year of `d` minus the June-30 day-of-year of `d`'s year when
`d.month ≥ 7`, and the day-of-year of `d` plus (Dec-31 day-of-year minus
June-30 day-of-year, both of the previous year) when `d.month < 7`;
the ordinal of July 1 of any year is 1, and the result is positive for
every valid date. -/
theorem getSeasonalOrdinal_spec (d : Date) (hv : d.Valid) :
    (getSeasonalOrdinal d =
      if 7 ≤ d.month then
        (dayOfYear d : Int) - (dayOfYear (Date.mk d.year 6 30) : Int)
      else
        (dayOfYear d : Int) +
          ((dayOfYear (Date.mk (d.year - 1) 12 31) : Int) -
            (dayOfYear (Date.mk (d.year - 1) 6 30) : Int)))
    ∧ (∀ y : Int, getSeasonalOrdinal (Date.mk y 7 1) = 1)
    ∧ 1 ≤ getSeasonalOrdinal d := by
  refine ⟨getSeasonalOrdinal_def d, ?_, ?_⟩
  · intro y
    rw [getSeasonalOrdinal_def]
    simp only [show (7 : Nat) ≤ 7 from le_refl 7, if_pos]
    have := daysBeforeMonth_july y
    simp only [dayOfYear] at *
    omega
  · rw [getSeasonalOrdinal_def]
    split
    · rename_i h7
      have h1 := dayOfYear_ge_july hv h7
      have h2 := daysBeforeMonth_july d.year
      omega
    · have h1 := one_le_dayOfYear hv
      have h2 := dayOfYear_dec31 (d.year - 1)
      have h3 := dayOfYear_jun30 (d.year - 1)
      unfold daysInYear at h2
      rcases h : isLeap (d.year - 1) <;> simp [h] at h2 h3 <;> omega

/-- C1 witness: the general theorem applied at the concrete valid date
2020-11-15. -/
theorem getSeasonalOrdinal_spec_witness :
    (Date.mk 2020 11 15).Valid ∧
      ((getSeasonalOrdinal (Date.mk 2020 11 15) =
        if 7 ≤ (Date.mk 2020 11 15).month then
          (dayOfYear (Date.mk 2020 11 15) : Int) -
            (dayOfYear (Date.mk (Date.mk 2020 11 15).year 6 30) : Int)
        else
          (dayOfYear (Date.mk 2020 11 15) : Int) +
            ((dayOfYear (Date.mk ((Date.mk 2020 11 15).year - 1) 12 31) : Int) -
              (dayOfYear (Date.mk ((Date.mk 2020 11 15).year - 1) 6 30) : Int)))
      ∧ (∀ y : Int, getSeasonalOrdinal (Date.mk y 7 1) = 1)
      ∧ 1 ≤ getSeasonalOrdinal (Date.mk 2020 11 15)) :=
  ⟨by decide, getSeasonalOrdinal_spec (Date.mk 2020 11 15) (by decide)⟩

/-- C3 counterexample: for the season 2019/2020 the starting year 2019 is
not a leap year, yet the seasonal ordinal of the season's last day,
June 30 2020, is 366, not the 365 the claim predicts. -/
theorem seasonEnd_ordinal_cex :
    isLeap 2019 = false ∧
      getSeasonalOrdinal (Date.mk 2020 6 30) ≠ (if isLeap 2019 then 366 else 365) := by
  decide

/-- C3 amended: for every season labelled Y/Y+1, the seasonal ordinal of
June 30 of year Y+1 (the season's last day) is 366 exactly when the ending
year Y+1 is a leap year (that is, when the season contains February 29),
and 365 otherwise. -/
theorem seasonEnd_ordinal (y : Int) :
    getSeasonalOrdinal (Date.mk (y + 1) 6 30) =
      if isLeap (y + 1) then 366 else 365 := by
  rw [getSeasonalOrdinal_def]
  have hyy : (Date.mk (y + 1) 6 30).year - 1 = y := by simp
  rw [hyy]
  have h2 := dayOfYear_dec31 y
  have h3 := dayOfYear_jun30 y
  have h4 := dayOfYear_jun30 (y + 1)
  unfold daysInYear at h2
  simp only [show ¬ ((7:Nat) ≤ (Date.mk (y+1) 6 30).month) from by simp, if_neg,
    not_false_iff]
  rcases h : isLeap y <;> rcases h' : isLeap (y + 1) <;>
    simp [h, h'] at h2 h3 h4 ⊢ <;> omega

-- ### Linear day count, date order, calendar successor

/-- Days in the years strictly before year `y`, counted proleptically
(`Int` floor division; the standard Gregorian leap count). -/
def daysBeforeYear (y : Int) : Int :=
  365 * (y - 1) + (y - 1) / 4 - (y - 1) / 100 + (y - 1) / 400

/-- Linear day number of a date (a rata-die style count): the value whose
differences `pandas` exposes as `.diff().dt.days` between index dates. -/
def rataDie (d : Date) : Int :=
  daysBeforeYear d.year + dayOfYear d

/-- Date comparison, as Python compares `datetime.date` values:
lexicographic on (year, month, day). -/
def Date.le (d1 d2 : Date) : Prop :=
  d1.year < d2.year ∨ (d1.year = d2.year ∧
    (d1.month < d2.month ∨ (d1.month = d2.month ∧ d1.day ≤ d2.day)))

/-- Strict date comparison, lexicographic on (year, month, day). -/
def Date.lt (d1 d2 : Date) : Prop :=
  d1.year < d2.year ∨ (d1.year = d2.year ∧
    (d1.month < d2.month ∨ (d1.month = d2.month ∧ d1.day < d2.day)))

instance (d1 d2 : Date) : Decidable (Date.le d1 d2) := by
  unfold Date.le; infer_instance

instance (d1 d2 : Date) : Decidable (Date.lt d1 d2) := by
  unfold Date.lt; infer_instance

/-- The calendar successor of a date: next day of the month, else first day
of the next month, else January 1 of the next year. -/
def nextDate (d : Date) : Date :=
  if d.day < monthLength d.year d.month then Date.mk d.year d.month (d.day + 1)
  else if d.month < 12 then Date.mk d.year (d.month + 1) 1
  else Date.mk (d.year + 1) 1 1

theorem isLeap_iff (y : Int) :
    isLeap y = true ↔ (y % 4 = 0 ∧ (y % 100 ≠ 0 ∨ y % 400 = 0)) := by
  simp [isLeap]

theorem daysBeforeYear_succ (y : Int) :
    daysBeforeYear (y + 1) = daysBeforeYear y + daysInYear y := by
  unfold daysBeforeYear daysInYear
  by_cases h : isLeap y = true
  · rw [if_pos h]
    rw [isLeap_iff] at h
    omega
  · rw [if_neg h]
    have h2 : ¬ (y % 4 = 0 ∧ (y % 100 ≠ 0 ∨ y % 400 = 0)) := by
      rw [← isLeap_iff]; simp [h]
    omega

theorem daysBeforeYear_add (y : Int) (n : Nat) :
    daysBeforeYear y + 365 * n ≤ daysBeforeYear (y + n) := by
  induction n with
  | zero => simp
  | succ k ih =>
    have hs := daysBeforeYear_succ (y + k)
    have hy : 365 ≤ (daysInYear (y + k) : Int) := by
      unfold daysInYear; split <;> omega
    have : (((k : Nat) + 1 : Nat) : Int) = (k : Int) + 1 := by push_cast; ring
    rw [this, ← add_assoc, hs]
    push_cast at *
    omega

theorem daysBeforeYear_mono {y1 y2 : Int} (h : y1 ≤ y2) :
    daysBeforeYear y1 ≤ daysBeforeYear y2 := by
  have hn := daysBeforeYear_add y1 (y2 - y1).toNat
  have he : y1 + ((y2 - y1).toNat : Int) = y2 := by omega
  rw [he] at hn
  omega

theorem rataDie_lt_of_lt {d1 d2 : Date} (v1 : d1.Valid) (v2 : d2.Valid)
    (h : Date.lt d1 d2) : rataDie d1 < rataDie d2 := by
  rcases h with h | ⟨hy, hmd⟩
  · have h1 : dayOfYear d1 ≤ daysInYear d1.year := dayOfYear_le_daysInYear v1
    have h2 : 1 ≤ dayOfYear d2 := one_le_dayOfYear v2
    have hs := daysBeforeYear_succ d1.year
    have hm : daysBeforeYear (d1.year + 1) ≤ daysBeforeYear d2.year :=
      daysBeforeYear_mono (by omega)
    unfold rataDie
    omega
  · have := dayOfYear_lt v1 v2 hy hmd
    unfold rataDie
    rw [hy]
    omega

theorem Date.not_le {d1 d2 : Date} : ¬ Date.le d1 d2 ↔ Date.lt d2 d1 := by
  unfold Date.le Date.lt
  omega

theorem Date.le_iff_lt_or_eq {d1 d2 : Date} :
    Date.le d1 d2 ↔ Date.lt d1 d2 ∨ d1 = d2 := by
  obtain ⟨y1, m1, a1⟩ := d1
  obtain ⟨y2, m2, a2⟩ := d2
  unfold Date.le Date.lt
  simp only [Date.mk.injEq]
  omega

theorem rataDie_le_iff {d1 d2 : Date} (v1 : d1.Valid) (v2 : d2.Valid) :
    rataDie d1 ≤ rataDie d2 ↔ Date.le d1 d2 := by
  constructor
  · intro h
    by_contra hn
    rw [Date.not_le] at hn
    have := rataDie_lt_of_lt v2 v1 hn
    omega
  · intro h
    rcases Date.le_iff_lt_or_eq.mp h with h' | h'
    · exact le_of_lt (rataDie_lt_of_lt v1 v2 h')
    · rw [h']

theorem rataDie_inj {d1 d2 : Date} (v1 : d1.Valid) (v2 : d2.Valid)
    (h : rataDie d1 = rataDie d2) : d1 = d2 := by
  rcases Date.le_iff_lt_or_eq.mp ((rataDie_le_iff v1 v2).mp (le_of_eq h)) with h1 | h1
  · rcases Date.le_iff_lt_or_eq.mp ((rataDie_le_iff v2 v1).mp (ge_of_eq h)) with h2 | h2
    · have := rataDie_lt_of_lt v1 v2 h1
      have := rataDie_lt_of_lt v2 v1 h2
      omega
    · exact h2.symm
  · exact h1

theorem nextDate_valid {d : Date} (v : d.Valid) : (nextDate d).Valid := by
  obtain ⟨y, m, a⟩ := d
  obtain ⟨h1, h2, h3, h4⟩ := v
  have hml1 : 1 ≤ monthLength y (m + 1) := one_le_monthLength y (m + 1)
  have hml2 : 1 ≤ monthLength (y + 1) 1 := one_le_monthLength (y + 1) 1
  simp only [nextDate, Date.Valid] at *
  split
  · try dsimp only
    omega
  · split
    · try dsimp only
      omega
    · try dsimp only
      omega

theorem rataDie_nextDate {d : Date} (v : d.Valid) :
    rataDie (nextDate d) = rataDie d + 1 := by
  obtain ⟨y, m, a⟩ := d
  obtain ⟨h1, h2, h3, h4⟩ := v
  dsimp only at *
  unfold nextDate
  dsimp only
  split
  · unfold rataDie dayOfYear
    dsimp only
    omega
  · rename_i hd
    split
    · rename_i hm
      have hday : a = monthLength y m := by omega
      have hsucc := daysBeforeMonth_succ y h1 (by omega : m ≤ 11)
      unfold rataDie dayOfYear
      dsimp only
      omega
    · rename_i hm
      have hm12 : m = 12 := by omega
      subst hm12
      have hday : a = 31 := by
        have hml : monthLength y 12 = 31 := rfl
        omega
      subst hday
      have hs := daysBeforeYear_succ y
      have hdec := dayOfYear_dec31 y
      unfold rataDie
      dsimp only
      have hdoy1 : dayOfYear (Date.mk (y + 1) 1 1) = 1 := by
        simp [dayOfYear, daysBeforeMonth]
      rw [hdoy1, hdec]
      omega

theorem nextDate_of_rataDie_succ {d1 d2 : Date} (v1 : d1.Valid) (v2 : d2.Valid)
    (h : rataDie d2 = rataDie d1 + 1) : d2 = nextDate d1 := by
  apply rataDie_inj v2 (nextDate_valid v1)
  rw [h, rataDie_nextDate v1]

/-- The seasonal ordinal of a valid date is its linear day number minus that
of June 30 of the season's starting year: the per-season shift is constant,
which is what makes ordinals of one season order-compatible with dates. -/
theorem getSeasonalOrdinal_eq_rataDie {d : Date} (v : d.Valid) :
    getSeasonalOrdinal d =
      rataDie d - rataDie (Date.mk (seasonStartYear d) 6 30) := by
  rw [getSeasonalOrdinal_def]
  unfold seasonStartYear rataDie
  split
  · simp only []
    omega
  · have hs := daysBeforeYear_succ (d.year - 1)
    rw [sub_add_cancel] at hs
    have hdec := dayOfYear_dec31 (d.year - 1)
    simp only []
    omega

-- ### Decimal rendering of years and the season label

/-- Fuelled least-significant-first decimal digit expansion; the fuel only
serves structural recursion and any fuel above the number is enough. -/
def natDigitsRevAux : Nat → Nat → List Nat
  | 0, _ => []
  | fuel + 1, n => if n < 10 then [n] else n % 10 :: natDigitsRevAux fuel (n / 10)

/-- Decimal digits of `n`, least significant first (`0` yields `[0]`). -/
def natDigitsRev (n : Nat) : List Nat :=
  natDigitsRevAux (n + 1) n

/-- Value of a least-significant-first digit list. -/
def decodeRev (l : List Nat) : Nat :=
  l.foldr (fun digit acc => acc * 10 + digit) 0

/-- Decimal character rendering of a natural number, most significant digit
first, as Python's `str` renders a nonnegative integer. -/
def charsOfNat (n : Nat) : List Char :=
  ((natDigitsRev n).reverse).map Nat.digitChar

/-- Character rendering of an integer, as Python's `str`: a minus sign and
the magnitude for negatives, plain digits otherwise. -/
def intChars (i : Int) : List Char :=
  if i < 0 then '-' :: charsOfNat i.natAbs else charsOfNat i.toNat

/-- Python's `str` of an integer (`year_start.astype(str)` applies it to
every index year). -/
def intToString (i : Int) : String :=
  String.mk (intChars i)

/-- The season label the record engine attaches
(`year_start.astype(str) + '/' + year_end.astype(str)`,
src/sneeuwhistorie.py:158-161). -/
def seasonLabel (d : Date) : String :=
  String.mk (intChars (seasonStartYear d) ++ '/' :: intChars (seasonStartYear d + 1))

theorem decodeRev_natDigitsRevAux :
    ∀ fuel n, n < fuel → decodeRev (natDigitsRevAux fuel n) = n := by
  intro fuel
  induction fuel with
  | zero => intro n h; omega
  | succ k ih =>
    intro n h
    unfold natDigitsRevAux
    split
    · simp [decodeRev]
    · rename_i h10
      have hdiv : n / 10 < k := by omega
      have hrec := ih (n / 10) hdiv
      simp only [decodeRev, List.foldr] at hrec ⊢
      omega

theorem decodeRev_natDigitsRev (n : Nat) : decodeRev (natDigitsRev n) = n :=
  decodeRev_natDigitsRevAux (n + 1) n (Nat.lt_succ_self n)

theorem natDigitsRev_inj {a b : Nat} (h : natDigitsRev a = natDigitsRev b) :
    a = b := by
  have ha := decodeRev_natDigitsRev a
  have hb := decodeRev_natDigitsRev b
  rw [← ha, ← hb, h]

theorem natDigitsRevAux_lt10 :
    ∀ fuel n, ∀ x ∈ natDigitsRevAux fuel n, x < 10 := by
  intro fuel
  induction fuel with
  | zero => intro n x hx; simp [natDigitsRevAux] at hx
  | succ k ih =>
    intro n x hx
    unfold natDigitsRevAux at hx
    split at hx
    · simp at hx; omega
    · simp at hx
      rcases hx with hx | hx
      · omega
      · exact ih _ _ hx

theorem natDigitsRevAux_ne_nil (fuel n : Nat) (h : 0 < fuel) :
    natDigitsRevAux fuel n ≠ [] := by
  cases fuel with
  | zero => omega
  | succ k =>
    unfold natDigitsRevAux
    split <;> simp

theorem charsOfNat_ne_nil (n : Nat) : charsOfNat n ≠ [] := by
  unfold charsOfNat natDigitsRev
  intro h
  rw [List.map_eq_nil_iff, List.reverse_eq_nil_iff] at h
  exact natDigitsRevAux_ne_nil (n + 1) n (Nat.succ_pos n) h

theorem mem_charsOfNat {n : Nat} {c : Char} (h : c ∈ charsOfNat n) :
    ∃ x, x < 10 ∧ c = Nat.digitChar x := by
  unfold charsOfNat at h
  rw [List.mem_map] at h
  obtain ⟨x, hx, hcx⟩ := h
  rw [List.mem_reverse] at hx
  exact ⟨x, natDigitsRevAux_lt10 _ _ x hx, hcx.symm⟩

theorem digitChar_inj10 : ∀ a < 10, ∀ b < 10,
    Nat.digitChar a = Nat.digitChar b → a = b := by decide

theorem digitChar_ne_dash : ∀ a < 10, Nat.digitChar a ≠ '-' := by decide

theorem digitChar_ne_slash : ∀ a < 10, Nat.digitChar a ≠ '/' := by decide

theorem map_digitChar_inj :
    ∀ l1 l2 : List Nat, (∀ x ∈ l1, x < 10) → (∀ x ∈ l2, x < 10) →
      l1.map Nat.digitChar = l2.map Nat.digitChar → l1 = l2 := by
  intro l1
  induction l1 with
  | nil =>
    intro l2 _ _ h
    cases l2 with
    | nil => rfl
    | cons b t => simp at h
  | cons a t ih =>
    intro l2 h1 h2 h
    cases l2 with
    | nil => simp at h
    | cons b t2 =>
      simp only [List.map, List.cons.injEq] at h
      have ha : a < 10 := h1 a (by simp)
      have hb : b < 10 := h2 b (by simp)
      have hab := digitChar_inj10 a ha b hb h.1
      have ht := ih t2 (fun x hx => h1 x (by simp [hx]))
        (fun x hx => h2 x (by simp [hx])) h.2
      rw [hab, ht]

theorem charsOfNat_inj {a b : Nat} (h : charsOfNat a = charsOfNat b) : a = b := by
  unfold charsOfNat at h
  have := map_digitChar_inj _ _
    (fun x hx => natDigitsRevAux_lt10 _ _ x (List.mem_reverse.mp hx))
    (fun x hx => natDigitsRevAux_lt10 _ _ x (List.mem_reverse.mp hx)) h
  rw [List.reverse_inj] at this
  exact natDigitsRev_inj this

theorem intChars_inj {i j : Int} (h : intChars i = intChars j) : i = j := by
  unfold intChars at h
  by_cases hi : i < 0 <;> by_cases hj : j < 0
  · rw [if_pos hi, if_pos hj] at h
    injection h with h1 h2
    have := charsOfNat_inj h2
    omega
  · rw [if_pos hi, if_neg hj] at h
    obtain ⟨c, rest, hcr⟩ := List.exists_cons_of_ne_nil (charsOfNat_ne_nil j.toNat)
    have hc : c ∈ charsOfNat j.toNat := by rw [hcr]; simp
    obtain ⟨x, hx10, hcx⟩ := mem_charsOfNat hc
    rw [hcr] at h
    injection h with h1 h2
    rw [hcx] at h1
    exact absurd h1.symm (digitChar_ne_dash x hx10)
  · rw [if_neg hi, if_pos hj] at h
    obtain ⟨c, rest, hcr⟩ := List.exists_cons_of_ne_nil (charsOfNat_ne_nil i.toNat)
    have hc : c ∈ charsOfNat i.toNat := by rw [hcr]; simp
    obtain ⟨x, hx10, hcx⟩ := mem_charsOfNat hc
    rw [hcr] at h
    injection h with h1 h2
    rw [hcx] at h1
    exact absurd h1 (digitChar_ne_dash x hx10)
  · rw [if_neg hi, if_neg hj] at h
    have := charsOfNat_inj h
    omega

theorem slash_not_mem_intChars (i : Int) : '/' ∉ intChars i := by
  unfold intChars
  intro hmem
  split at hmem
  · rcases List.mem_cons.mp hmem with h | h
    · exact absurd h.symm (by decide)
    · obtain ⟨x, hx10, hcx⟩ := mem_charsOfNat h
      exact digitChar_ne_slash x hx10 hcx.symm
  · obtain ⟨x, hx10, hcx⟩ := mem_charsOfNat hmem
    exact digitChar_ne_slash x hx10 hcx.symm

theorem append_slash_cancel :
    ∀ (a1 a2 b1 b2 : List Char), '/' ∉ a1 → '/' ∉ a2 →
      a1 ++ '/' :: b1 = a2 ++ '/' :: b2 → a1 = a2 ∧ b1 = b2 := by
  intro a1
  induction a1 with
  | nil =>
    intro a2 b1 b2 _ h2 h
    cases a2 with
    | nil => simpa using h
    | cons c t =>
      simp only [List.nil_append, List.cons_append, List.cons.injEq] at h
      exact absurd (by rw [h.1]; exact List.mem_cons_self c t) h2
  | cons c t ih =>
    intro a2 b1 b2 h1 h2 h
    cases a2 with
    | nil =>
      simp only [List.cons_append, List.nil_append, List.cons.injEq] at h
      exact absurd (by rw [← h.1]; exact List.mem_cons_self c t) h1
    | cons c2 t2 =>
      simp only [List.cons_append, List.cons.injEq] at h
      have hrec := ih t2 b1 b2 (fun hm => h1 (List.mem_cons_of_mem c hm))
        (fun hm => h2 (List.mem_cons_of_mem c2 hm)) h.2
      exact ⟨by rw [h.1, hrec.1], hrec.2⟩

/-- Season labels determine the season start year: distinct start years give
distinct labels. -/
theorem seasonLabel_inj {d1 d2 : Date} (h : seasonLabel d1 = seasonLabel d2) :
    seasonStartYear d1 = seasonStartYear d2 := by
  unfold seasonLabel at h
  have hdata : intChars (seasonStartYear d1) ++ '/' :: intChars (seasonStartYear d1 + 1)
      = intChars (seasonStartYear d2) ++ '/' :: intChars (seasonStartYear d2 + 1) := by
    injection h
  have := append_slash_cancel _ _ _ _
    (slash_not_mem_intChars (seasonStartYear d1))
    (slash_not_mem_intChars (seasonStartYear d2)) hdata
  exact intChars_inj this.1

theorem String_mk_append (a b : List Char) :
    String.mk a ++ String.mk b = String.mk (a ++ b) := rfl

/-- The label change at a date's successor: precisely at a June 30 the
successor is July 1 and the season start year advances by one; on every
other day the start year is unchanged. -/
theorem seasonStartYear_nextDate {d : Date} (v : d.Valid) :
    (nextDate d = Date.mk d.year 7 1
        ∧ seasonStartYear (nextDate d) = seasonStartYear d + 1
        ∧ d.month = 6 ∧ d.day = 30)
    ∨ (nextDate d ≠ Date.mk d.year 7 1
        ∧ seasonStartYear (nextDate d) = seasonStartYear d) := by
  obtain ⟨y, m, a⟩ := d
  obtain ⟨h1, h2, h3, h4⟩ := v
  dsimp only at *
  unfold nextDate
  dsimp only
  split
  · right
    constructor
    · intro he
      simp only [Date.mk.injEq] at he
      omega
    · unfold seasonStartYear
      rfl
  · rename_i hd
    split
    · rename_i hm
      by_cases hm6 : m = 6
      · left
        subst hm6
        have ha : a = 30 := by
          have : monthLength y 6 = 30 := rfl
          omega
        refine ⟨by norm_num, ?_, rfl, ha⟩
        unfold seasonStartYear
        dsimp only
        norm_num
      · right
        constructor
        · intro he
          simp only [Date.mk.injEq] at he
          omega
        · unfold seasonStartYear
          dsimp only
          split <;> split <;> omega
    · rename_i hm
      right
      constructor
      · intro he
        simp only [Date.mk.injEq] at he
        omega
      · unfold seasonStartYear
        dsimp only
        split <;> split <;> omega

/-- C7: for every valid date, the record engine's season label is
`str(Y) + "/" + str(Y+1)` where `Y` is the date's year for months ≥ July
and the year minus one otherwise; each date receives exactly one label, and
the label of the successor differs from that of the date exactly when the
successor is July 1 (the season rollover). -/
theorem seasonLabel_spec (d : Date) (hv : d.Valid) :
    seasonLabel d =
      intToString (if 7 ≤ d.month then d.year else d.year - 1) ++ "/" ++
        intToString ((if 7 ≤ d.month then d.year else d.year - 1) + 1)
    ∧ (∃! s : String, seasonLabel d = s)
    ∧ (seasonLabel (nextDate d) ≠ seasonLabel d ↔ nextDate d = Date.mk d.year 7 1) := by
  refine ⟨?_, ⟨seasonLabel d, rfl, fun s hs => hs.symm⟩, ?_⟩
  · unfold seasonLabel intToString seasonStartYear
    rw [show ("/" : String) = String.mk ['/'] from rfl,
      String_mk_append, String_mk_append]
    simp
  · have hlab : ∀ dd : Date, seasonStartYear dd = seasonStartYear d →
        seasonLabel dd = seasonLabel d := by
      intro dd hh
      unfold seasonLabel
      rw [hh]
    rcases seasonStartYear_nextDate hv with ⟨hj, hy, _, _⟩ | ⟨hj, hy⟩
    · constructor
      · intro _; exact hj
      · intro _ hc
        have := seasonLabel_inj hc
        omega
    · constructor
      · intro hne
        exact absurd (hlab _ hy) hne
      · intro hc
        exact absurd hc hj

/-- C7 witness: the general theorem applied at June 30 2021, whose successor
July 1 2021 starts season 2021/2022. -/
theorem seasonLabel_spec_witness :
    (Date.mk 2021 6 30).Valid ∧
      (seasonLabel (Date.mk 2021 6 30) =
        intToString (if 7 ≤ (Date.mk 2021 6 30).month then (Date.mk 2021 6 30).year
            else (Date.mk 2021 6 30).year - 1) ++ "/" ++
          intToString ((if 7 ≤ (Date.mk 2021 6 30).month then (Date.mk 2021 6 30).year
            else (Date.mk 2021 6 30).year - 1) + 1)
      ∧ (∃! s : String, seasonLabel (Date.mk 2021 6 30) = s)
      ∧ (seasonLabel (nextDate (Date.mk 2021 6 30)) ≠ seasonLabel (Date.mk 2021 6 30) ↔
          nextDate (Date.mk 2021 6 30) = Date.mk (Date.mk 2021 6 30).year 7 1)) :=
  ⟨by decide, seasonLabel_spec (Date.mk 2021 6 30) (by decide)⟩

/-- C2: for valid dates in the same season (equal season labels), the
seasonal ordinal comparison agrees with the date comparison; moreover the
ordinal advances by exactly one from December 31 to January 1 (the year
boundary inside a season). -/
theorem getSeasonalOrdinal_mono (d1 d2 : Date) (v1 : d1.Valid) (v2 : d2.Valid)
    (hs : seasonLabel d1 = seasonLabel d2) :
    (getSeasonalOrdinal d1 ≤ getSeasonalOrdinal d2 ↔ Date.le d1 d2)
    ∧ (∀ y : Int, getSeasonalOrdinal (Date.mk (y + 1) 1 1) =
        getSeasonalOrdinal (Date.mk y 12 31) + 1) := by
  constructor
  · have hY := seasonLabel_inj hs
    rw [getSeasonalOrdinal_eq_rataDie v1, getSeasonalOrdinal_eq_rataDie v2, hY]
    have hiff := rataDie_le_iff v1 v2
    constructor
    · intro h
      exact hiff.mp (by omega)
    · intro h
      have := hiff.mpr h
      omega
  · intro y
    rw [getSeasonalOrdinal_def, getSeasonalOrdinal_def]
    have e1 : ¬ (7 ≤ (Date.mk (y+1) 1 1).month) := by norm_num
    have e2 : (7 ≤ (Date.mk y 12 31).month) := by norm_num
    rw [if_neg e1, if_pos e2]
    dsimp only
    have h1 : y + 1 - 1 = y := by ring
    rw [h1]
    have hd : dayOfYear (Date.mk (y+1) 1 1) = 1 := by
      simp [dayOfYear, daysBeforeMonth]
    rw [hd]
    omega

/-- C2 witness: the general theorem applied across the year boundary of
season 2020/2021, at December 31 2020 and January 1 2021. -/
theorem getSeasonalOrdinal_mono_witness :
    (Date.mk 2020 12 31).Valid ∧ (Date.mk 2021 1 1).Valid ∧
      seasonLabel (Date.mk 2020 12 31) = seasonLabel (Date.mk 2021 1 1) ∧
      (getSeasonalOrdinal (Date.mk 2020 12 31) ≤ getSeasonalOrdinal (Date.mk 2021 1 1) ↔
        Date.le (Date.mk 2020 12 31) (Date.mk 2021 1 1)) :=
  ⟨by decide, by decide, by decide,
    (getSeasonalOrdinal_mono (Date.mk 2020 12 31) (Date.mk 2021 1 1)
      (by decide) (by decide) (by decide)).1⟩

/-- C9: for every valid input date, constructing June 30 of its calendar
year inside `get_seasonal_ordinal` succeeds (June 30 is valid in every
year), so the `except ValueError` fallback branch is unreachable and the
June-30 ordinal always comes from the constructed date. -/
theorem jun30_construction_total (d : Date) (hv : d.Valid) :
    mkDate d.year 6 30 = some (Date.mk d.year 6 30)
    ∧ (Date.mk d.year 6 30).Valid
    ∧ (match mkDate d.year 6 30 with
       | some j => dayOfYear j
       | none => dayOfYear (Date.mk d.year 6 30)) = dayOfYear (Date.mk d.year 6 30) := by
  have hml : monthLength d.year 6 = 30 := rfl
  refine ⟨mkDate_jun30 d.year, ?_, by rw [mkDate_jun30 d.year]⟩
  unfold Date.Valid
  dsimp only
  omega

/-- C9 witness: the general theorem applied at the valid date 2021-02-15. -/
theorem jun30_construction_total_witness :
    (Date.mk 2021 2 15).Valid ∧
      (mkDate (Date.mk 2021 2 15).year 6 30 = some (Date.mk (Date.mk 2021 2 15).year 6 30)
      ∧ (Date.mk (Date.mk 2021 2 15).year 6 30).Valid
      ∧ (match mkDate (Date.mk 2021 2 15).year 6 30 with
         | some j => dayOfYear j
         | none => dayOfYear (Date.mk (Date.mk 2021 2 15).year 6 30)) =
          dayOfYear (Date.mk (Date.mk 2021 2 15).year 6 30)) :=
  ⟨by decide, jun30_construction_total (Date.mk 2021 2 15) (by decide)⟩

-- ### The record engine (`calculate_snow_records`)

/-- A daily series: the date-indexed single-column frame the builder
produces (index: date, column: daily maximum snow depth in cm). -/
abbrev DailySeries := List (Date × ℚ)

/-- A row of the working frame after the season column is attached:
(index date, depth, season label). -/
abbrev SeasonedRow := Date × ℚ × String

/-- Models `df.copy()`: a fresh frame object with the same contents;
writes to the copy never reach the original. -/
def seriesCopy (df : DailySeries) : DailySeries := df

/-- Models `temp_df['Seizoen'] = year_start.astype(str) + '/' +
year_end.astype(str)` (src/sneeuwhistorie.py:158-161): every row gains its
season label. -/
def addSeason (df : DailySeries) : List SeasonedRow :=
  df.map (fun p => (p.1, p.2, seasonLabel p.1))

/-- Stable insertion of `x` into `l`: `x` goes in front of the first
element `y` with `le x y`. -/
def insertBy {α : Type} (le : α → α → Bool) (x : α) : List α → List α
  | [] => [x]
  | y :: ys => if le x y then x :: y :: ys else y :: insertBy le x ys

/-- Stable insertion sort, modelling the deterministic order `pandas`
produces from `sort_values`/sorted group keys (ties keep the earlier
element first). -/
def sortBy {α : Type} (le : α → α → Bool) (l : List α) : List α :=
  l.foldr (insertBy le) []

/-- Worker for first-occurrence deduplication: drop an element whose key
was already seen, keep it and record its key otherwise. -/
def dedupByKeyAux {α κ : Type} [DecidableEq κ] (key : α → κ) (seen : List κ) :
    List α → List α
  | [] => []
  | x :: xs =>
    if key x ∈ seen then dedupByKeyAux key seen xs
    else x :: dedupByKeyAux key (key x :: seen) xs

/-- Keep the first occurrence of every key, dropping later duplicates, as
`~index.duplicated(keep='first')` and as grouping collects distinct keys. -/
def dedupByKey {α κ : Type} [DecidableEq κ] (key : α → κ) (l : List α) : List α :=
  dedupByKeyAux key [] l

/-- Lexicographic (code-point) comparison of character lists: the order
Python and `pandas` use on strings, hence on season-label group keys. -/
def charsLeB : List Char → List Char → Bool
  | [], _ => true
  | _ :: _, [] => false
  | c1 :: t1, c2 :: t2 =>
    if c1 < c2 then true else if c1 = c2 then charsLeB t1 t2 else false

/-- String comparison by code points, as Python compares `str` values. -/
def strLeB (s1 s2 : String) : Bool :=
  charsLeB s1.data s2.data

/-- The distinct season labels of the rows in the sorted order `groupby`
yields its groups (keys sorted ascending as strings). -/
def groupKeys (rows : List SeasonedRow) : List String :=
  sortBy strLeB (dedupByKey id (rows.map (fun r => r.2.2)))

/-- Maximum of a nonempty depth list (`Series.max()` on a group); 0 is a
junk value for the empty list, which grouping never produces. -/
def groupMaxQ : List ℚ → ℚ
  | [] => 0
  | x :: xs => xs.foldl max x

/-- Depth values of the rows carrying season label `s`. -/
def seasonDepths (rows : List SeasonedRow) (s : String) : List ℚ :=
  (rows.filter (fun r => decide (r.2.2 = s))).map (fun r => r.2.1)

/-- Index dates of the rows carrying season label `s`. -/
def seasonDates (rows : List SeasonedRow) (s : String) : List Date :=
  (rows.filter (fun r => decide (r.2.2 = s))).map (fun r => r.1)

/-- Junk date used only where the program never reads the value. -/
def dummyDate : Date := Date.mk 0 1 1

/-- Minimum date of a nonempty list (`DatetimeIndex.min()`). -/
def minDateOf : List Date → Date
  | [] => dummyDate
  | d :: ds => ds.foldl (fun acc x => if Date.lt x acc then x else acc) d

/-- Maximum date of a nonempty list (`DatetimeIndex.max()`). -/
def maxDateOf : List Date → Date
  | [] => dummyDate
  | d :: ds => ds.foldl (fun acc x => if Date.lt acc x then x else acc) d

/-- Per-season top-10 of maximum depth: `temp_df.groupby('Seizoen')[...]
.max().sort_values(ascending=False).head(10)` (src/sneeuwhistorie.py:171).
Note it groups the FULL frame `temp_df`, not the snow-day filtered one. -/
def top10MaxOf (rows : List SeasonedRow) : List (String × ℚ) :=
  (sortBy (fun p q : String × ℚ => decide (q.2 ≤ p.2))
    ((groupKeys rows).map (fun s => (s, groupMaxQ (seasonDepths rows s))))).take 10

/-- Earliest snow date per season:
`snow_days.groupby('Seizoen').apply(lambda x: x.index.min())`. -/
def earliestSnowAll (snowRows : List SeasonedRow) : List (String × Date) :=
  (groupKeys snowRows).map (fun s => (s, minDateOf (seasonDates snowRows s)))

/-- Latest snow date per season:
`snow_days.groupby('Seizoen').apply(lambda x: x.index.max())`. -/
def latestSnowAll (snowRows : List SeasonedRow) : List (String × Date) :=
  (groupKeys snowRows).map (fun s => (s, maxDateOf (seasonDates snowRows s)))

/-- Ascending sort by the seasonal ordinal of the carried date
(`sort_values(by='Seasonal_Ordinal', ascending=True)`). -/
def sortByOrdinalAsc (l : List (String × Date)) : List (String × Date) :=
  sortBy (fun p q => decide (getSeasonalOrdinal p.2 ≤ getSeasonalOrdinal q.2)) l

/-- Descending sort by the seasonal ordinal of the carried date
(`sort_values(by='Seasonal_Ordinal', ascending=False)`). -/
def sortByOrdinalDesc (l : List (String × Date)) : List (String × Date) :=
  sortBy (fun p q => decide (getSeasonalOrdinal q.2 ≤ getSeasonalOrdinal p.2)) l

/-- Snow-day count per season, descending, first 10:
`snow_days.groupby('Seizoen').size().sort_values(ascending=False).head(10)`. -/
def top10MostDaysOf (snowRows : List SeasonedRow) : List (String × Nat) :=
  (sortBy (fun p q : String × Nat => decide (q.2 ≤ p.2))
    ((groupKeys snowRows).map (fun s => (s, (seasonDates snowRows s).length)))).take 10

/-- Maximal runs of the date list, broken exactly where the day difference
of successive entries is not 1: the grouping
`snow_present_days.diff().dt.days.ne(1).cumsum()` induces
(src/sneeuwhistorie.py:223). -/
def chunkRuns : List Date → List (List Date)
  | [] => []
  | [d] => [[d]]
  | d :: d2 :: rest =>
    match chunkRuns (d2 :: rest) with
    | [] => [[d]]
    | c :: cs =>
      if rataDie d2 = rataDie d + 1 then (d :: c) :: cs else [d] :: c :: cs

/-- Largest run length (`value_counts().max()`). -/
def maxRunLen (cs : List (List Date)) : Nat :=
  (cs.map List.length).foldl Nat.max 0

/-- The longest-streak record: length, start and end date of the first run
of maximal length (`value_counts` orders tied groups by first appearance
and `idxmax` takes the first maximum; the group's `.min()`/`.max()` are the
run's first and last date). `none` models the skipped block when there are
no snow-present days. -/
def longestStreakOf (dates : List Date) : Option (Nat × Date × Date) :=
  match (chunkRuns dates).find?
      (fun c => decide (c.length = maxRunLen (chunkRuns dates))) with
  | some c => some (c.length, c.head?.getD dummyDate, c.getLast?.getD dummyDate)
  | none => none

/-- The record set `calculate_snow_records` assembles into its results
dict; date formatting (`strftime`) is presentation and kept as dates. -/
structure SnowRecords where
  top10Max : List (String × ℚ)
  top10EarliestStart : List (String × Date)
  top10LatestStart : List (String × Date)
  top10EarliestEnd : List (String × Date)
  top10LatestEnd : List (String × Date)
  top10MostDays : List (String × Nat)
  longestStreak : Option (Nat × Date × Date)
  totalSnowDays : Nat
deriving DecidableEq, Repr

/-- The body of `calculate_snow_records` after the season column is added
(src/sneeuwhistorie.py:163-239): filter the snow days, return `none` (the
`NoRecordsSignal`) when there are none, otherwise assemble the records. -/
def computeRecords (temp : List SeasonedRow) : Option SnowRecords :=
  let snowRows := temp.filter (fun r => decide (0 < r.2.1))
  if snowRows.isEmpty then none
  else
    some {
      top10Max := top10MaxOf temp
      top10EarliestStart := (sortByOrdinalAsc (earliestSnowAll snowRows)).take 10
      top10LatestStart := (sortByOrdinalDesc (earliestSnowAll snowRows)).take 10
      top10EarliestEnd := (sortByOrdinalAsc (latestSnowAll snowRows)).take 10
      top10LatestEnd := (sortByOrdinalDesc (latestSnowAll snowRows)).take 10
      top10MostDays := top10MostDaysOf snowRows
      longestStreak :=
        longestStreakOf ((temp.filter (fun r => decide (0 < r.2.1))).map (fun r => r.1))
      totalSnowDays := snowRows.length }

/-- Embedding of `calculate_snow_records` with the input object's state
threaded explicitly: the function first takes `temp_df = df.copy()` and
every later write (`temp_df['Seizoen'] = ...`) hits the copy, so the pair
returned is (final state of the caller's frame, result). -/
def calculateSnowRecordsTracked (df : DailySeries) :
    DailySeries × Option SnowRecords :=
  let temp := addSeason (seriesCopy df)
  (df, computeRecords temp)

/-- The result of `calculate_snow_records` as its caller sees it. -/
def calculateSnowRecords (df : DailySeries) : Option SnowRecords :=
  (calculateSnowRecordsTracked df).2

/-- The snow-day dates of a series in index order, as
`snow_present[snow_present].index` lists them. -/
def snowDates (df : DailySeries) : List Date :=
  (df.filter (fun p => decide (0 < p.2))).map (fun p => p.1)

-- ### Engine lemmas and claims C5, C10, C4

theorem filter_addSeason_eq_nil (df : DailySeries) :
    ((addSeason df).filter (fun r => decide (0 < r.2.1)) = []) ↔
      ∀ p ∈ df, ¬ (0 < p.2) := by
  unfold addSeason
  rw [List.filter_map, List.map_eq_nil_iff, List.filter_eq_nil_iff]
  constructor
  · intro h p hp
    have := h p hp
    simpa using this
  · intro h p hp
    have := h p hp
    simpa using this

/-- C5: on a non-empty series of nonnegative depths, the engine returns the
`NoRecordsSignal` (`None`) exactly when no entry has positive depth; an
all-zero series yields the signal, and any series with a positive entry
yields a record set. -/
theorem calculateSnowRecords_none_iff (df : DailySeries) (hne : df ≠ [])
    (hnn : ∀ p ∈ df, 0 ≤ p.2) :
    (calculateSnowRecords df = none ↔ ¬ ∃ p ∈ df, 0 < p.2)
    ∧ ((∀ p ∈ df, p.2 = 0) → calculateSnowRecords df = none)
    ∧ ((∃ p ∈ df, 0 < p.2) → ∃ r, calculateSnowRecords df = some r) := by
  have hmain : calculateSnowRecords df = none ↔ ¬ ∃ p ∈ df, 0 < p.2 := by
    unfold calculateSnowRecords calculateSnowRecordsTracked computeRecords seriesCopy
    simp only []
    constructor
    · intro h
      split at h
      · rename_i hemp
        rw [List.isEmpty_iff, filter_addSeason_eq_nil] at hemp
        intro ⟨p, hp, hpos⟩
        exact hemp p hp hpos
      · exact absurd h (by simp)
    · intro h
      rw [if_pos ?_]
      rw [List.isEmpty_iff, filter_addSeason_eq_nil]
      intro p hp hpos
      exact h ⟨p, hp, hpos⟩
  refine ⟨hmain, ?_, ?_⟩
  · intro hz
    rw [hmain]
    intro ⟨p, hp, hpos⟩
    rw [hz p hp] at hpos
    exact lt_irrefl 0 hpos
  · intro hex
    rcases hcase : calculateSnowRecords df with _ | r
    · exact absurd (hmain.mp hcase) (by simpa using hex)
    · exact ⟨r, rfl⟩

/-- C5 witness: the general theorem applied to the two-day all-zero series
and checked to return the signal. -/
theorem calculateSnowRecords_none_iff_witness :
    ([(Date.mk 2020 12 1, (0 : ℚ)), (Date.mk 2020 12 2, 0)] ≠ ([] : DailySeries)) ∧
    (∀ p ∈ [(Date.mk 2020 12 1, (0 : ℚ)), (Date.mk 2020 12 2, 0)], 0 ≤ p.2) ∧
    (calculateSnowRecords [(Date.mk 2020 12 1, (0 : ℚ)), (Date.mk 2020 12 2, 0)] = none ↔
      ¬ ∃ p ∈ [(Date.mk 2020 12 1, (0 : ℚ)), (Date.mk 2020 12 2, 0)], 0 < p.2) :=
  ⟨by decide, by decide,
    (calculateSnowRecords_none_iff _ (by decide) (by decide)).1⟩

/-- C10: `calculate_snow_records` never changes its caller's frame: the
season column and the filters are applied to `temp_df = df.copy()`, so the
input object's final state equals its initial state. -/
theorem calculateSnowRecords_preserves_input (df : DailySeries) :
    (calculateSnowRecordsTracked df).1 = df := rfl

theorem mem_insertBy {α : Type} (le : α → α → Bool) (x a : α) :
    ∀ l : List α, (a ∈ insertBy le x l ↔ a = x ∨ a ∈ l) := by
  intro l
  induction l with
  | nil => simp [insertBy]
  | cons y ys ih =>
    unfold insertBy
    split
    · simp
    · simp only [List.mem_cons, ih]
      tauto

theorem mem_sortBy {α : Type} (le : α → α → Bool) (a : α) :
    ∀ l : List α, (a ∈ sortBy le l ↔ a ∈ l) := by
  intro l
  induction l with
  | nil => simp [sortBy]
  | cons x xs ih =>
    show a ∈ insertBy le x (sortBy le xs) ↔ _
    rw [mem_insertBy, ih]
    simp

theorem mem_dedupByKeyAux {α κ : Type} [DecidableEq κ] (key : α → κ) (a : α) :
    ∀ (l : List α) (seen : List κ), a ∈ dedupByKeyAux key seen l → a ∈ l := by
  intro l
  induction l with
  | nil => intro seen h; simp [dedupByKeyAux] at h
  | cons x xs ih =>
    intro seen h
    unfold dedupByKeyAux at h
    split at h
    · exact List.mem_cons_of_mem x (ih seen h)
    · rcases List.mem_cons.mp h with h1 | h1
      · rw [h1]; exact List.mem_cons_self x xs
      · exact List.mem_cons_of_mem x (ih _ h1)

theorem mem_groupKeys {s : String} {rows : List SeasonedRow}
    (h : s ∈ groupKeys rows) : ∃ r ∈ rows, r.2.2 = s := by
  unfold groupKeys dedupByKey at h
  rw [mem_sortBy] at h
  have := mem_dedupByKeyAux id s _ _ h
  rw [List.mem_map] at this
  obtain ⟨r, hr, hrs⟩ := this
  exact ⟨r, hr, hrs⟩

theorem chain'_insertBy {α : Type} {le : α → α → Bool}
    (htot : ∀ a b, le a b = true ∨ le b a = true) (x : α) :
    ∀ l, List.Chain' (fun a b => le a b = true) l →
      List.Chain' (fun a b => le a b = true) (insertBy le x l) := by
  intro l
  induction l with
  | nil => intro _; simp [insertBy]
  | cons y ys ih =>
    intro h
    unfold insertBy
    split
    · rename_i hxy
      exact List.chain'_cons.mpr ⟨hxy, h⟩
    · rename_i hxy
      have hyx : le y x = true := by
        rcases htot x y with h' | h'
        · exact absurd h' hxy
        · exact h'
      cases ys with
      | nil =>
        simp only [insertBy]
        exact List.chain'_cons.mpr ⟨hyx, List.chain'_singleton x⟩
      | cons z zs =>
        have hyz : le y z = true := (List.chain'_cons.mp h).1
        have htail := ih (List.chain'_cons.mp h).2
        show List.Chain' _ (y :: insertBy le x (z :: zs))
        unfold insertBy
        split
        · rename_i hxz
          exact List.chain'_cons.mpr ⟨hyx,
            List.chain'_cons.mpr ⟨hxz, (List.chain'_cons.mp h).2⟩⟩
        · rename_i hxz
          have hins : insertBy le x (z :: zs) = z :: insertBy le x zs := by
            show (if le x z = true then x :: z :: zs else z :: insertBy le x zs) =
              z :: insertBy le x zs
            rw [if_neg hxz]
          rw [hins] at htail
          exact List.chain'_cons.mpr ⟨hyz, htail⟩

theorem chain'_sortBy {α : Type} {le : α → α → Bool}
    (htot : ∀ a b, le a b = true ∨ le b a = true) :
    ∀ l : List α, List.Chain' (fun a b => le a b = true) (sortBy le l) := by
  intro l
  induction l with
  | nil => simp [sortBy]
  | cons x xs ih =>
    show List.Chain' _ (insertBy le x (sortBy le xs))
    exact chain'_insertBy htot x _ ih

/-- The two-day series exhibiting the unfiltered grouping of the Top-10
ranking: one snow day in season 2019/2020, one zero-depth day (no snow) in
season 2020/2021. -/
def top10CexSeries : DailySeries :=
  [(Date.mk 2019 12 1, 5), (Date.mk 2020 12 1, 0)]

/-- C4 counterexample: the engine's Top-10-by-maximum ranking contains the
season 2020/2021 with value 0 although that season has no snow day in the
series — the ranking is grouped over `temp_df` (all entries), not over the
snow-day filtered frame, so a season with no snow day can appear. -/
theorem top10Max_filtered_cex :
    (calculateSnowRecords top10CexSeries).map SnowRecords.top10Max =
      some [("2019/2020", 5), ("2020/2021", 0)]
    ∧ top10CexSeries.filter
        (fun p => decide (0 < p.2 ∧ seasonLabel p.1 = "2020/2021")) = [] := by
  decide

/-- C4 amended: the Top-10-by-maximum ranking is computed from all entries
of the series (grouping `temp_df` by season, zero-depth days included), not
from the snow-day-filtered entries: whenever the engine returns a record
set, each ranking pair carries the season of some series entry — possibly
one with no snow day — together with the maximum depth over all of that
season's entries (0 for a snow-free season); the ranking is sorted by
descending maximum and keeps at most 10 seasons. -/
theorem top10Max_spec (df : DailySeries) (r : SnowRecords)
    (h : calculateSnowRecords df = some r) :
    (∀ p ∈ r.top10Max,
        (∃ e ∈ df, seasonLabel e.1 = p.1)
        ∧ p.2 = groupMaxQ (seasonDepths (addSeason df) p.1))
    ∧ r.top10Max.length ≤ 10
    ∧ List.Chain' (fun p q : String × ℚ => q.2 ≤ p.2) r.top10Max := by
  have hr : r.top10Max = top10MaxOf (addSeason df) := by
    unfold calculateSnowRecords calculateSnowRecordsTracked computeRecords seriesCopy at h
    simp only [] at h
    split at h
    · exact absurd h (by simp)
    · have := (Option.some.injEq _ _).mp h
      rw [← this]
  rw [hr]
  refine ⟨?_, ?_, ?_⟩
  · intro p hp
    unfold top10MaxOf at hp
    have hp2 := (List.take_sublist 10 _).subset hp
    rw [mem_sortBy, List.mem_map] at hp2
    obtain ⟨s, hs, hps⟩ := hp2
    obtain ⟨row, hrow, hrs⟩ := mem_groupKeys hs
    unfold addSeason at hrow
    rw [List.mem_map] at hrow
    obtain ⟨e, he, hes⟩ := hrow
    refine ⟨⟨e, he, ?_⟩, ?_⟩
    · rw [← hps]
      rw [← hes] at hrs
      exact hrs
    · rw [← hps]
  · unfold top10MaxOf
    rw [List.length_take]
    exact min_le_left _ _
  · unfold top10MaxOf
    have htot : ∀ p q : String × ℚ,
        (fun p q : String × ℚ => decide (q.2 ≤ p.2)) p q = true ∨
        (fun p q : String × ℚ => decide (q.2 ≤ p.2)) q p = true := by
      intro p q
      rcases le_total p.2 q.2 with h' | h' <;> simp [h']
    have hch := chain'_sortBy htot
      ((groupKeys (addSeason df)).map
        (fun s => (s, groupMaxQ (seasonDepths (addSeason df) s))))
    have hpre := hch.prefix (List.take_prefix 10 _)
    exact hpre.imp (fun a b hab => by simpa using hab)

/-- The record set the engine computes from `top10CexSeries`, written out. -/
def top10CexRecords : SnowRecords where
  top10Max := [("2019/2020", 5), ("2020/2021", 0)]
  top10EarliestStart := [("2019/2020", Date.mk 2019 12 1)]
  top10LatestStart := [("2019/2020", Date.mk 2019 12 1)]
  top10EarliestEnd := [("2019/2020", Date.mk 2019 12 1)]
  top10LatestEnd := [("2019/2020", Date.mk 2019 12 1)]
  top10MostDays := [("2019/2020", 1)]
  longestStreak := some (1, Date.mk 2019 12 1, Date.mk 2019 12 1)
  totalSnowDays := 1

/-- C4 witness: the amended theorem applied to the two-day counterexample
series, whose full record set is checked explicitly. -/
theorem top10Max_spec_witness :
    calculateSnowRecords top10CexSeries = some top10CexRecords
    ∧ ((∀ p ∈ top10CexRecords.top10Max,
        (∃ e ∈ top10CexSeries, seasonLabel e.1 = p.1)
        ∧ p.2 = groupMaxQ (seasonDepths (addSeason top10CexSeries) p.1))
    ∧ top10CexRecords.top10Max.length ≤ 10
    ∧ List.Chain' (fun p q : String × ℚ => q.2 ≤ p.2) top10CexRecords.top10Max) :=
  ⟨by decide, top10Max_spec top10CexSeries top10CexRecords (by decide)⟩

-- ### Longest-streak analysis (C6)

/-- One-calendar-day step between dates, as the code observes it through
`diff().dt.days == 1` on the date index. -/
def stepRel (a b : Date) : Prop := rataDie b = rataDie a + 1

/-- A break between adjacent runs: the gap from the last date of one run to
the first date of the next is not one calendar day. -/
def breakRel (c1 c2 : List Date) : Prop :=
  ¬ stepRel (c1.getLast?.getD dummyDate) (c2.head?.getD dummyDate)

theorem chunkRuns_cons_structure :
    ∀ (l : List Date) (d : Date),
      ∃ c cs, chunkRuns (d :: l) = c :: cs ∧ c.head? = some d := by
  intro l
  induction l with
  | nil => intro d; exact ⟨[d], [], rfl, rfl⟩
  | cons d2 rest ih =>
    intro d
    obtain ⟨c2, cs2, hm, _⟩ := ih d2
    show ∃ c cs, (match chunkRuns (d2 :: rest) with
      | [] => [[d]]
      | c :: cs =>
        if rataDie d2 = rataDie d + 1 then (d :: c) :: cs else [d] :: c :: cs)
      = c :: cs ∧ c.head? = some d
    rw [hm]
    by_cases hd : rataDie d2 = rataDie d + 1
    · exact ⟨d :: c2, cs2, by simp [hd], rfl⟩
    · exact ⟨[d], c2 :: cs2, by simp [hd], rfl⟩

/-- Structure of the run decomposition: the runs concatenate back to the
input; every run is nonempty and internally steps by exactly one calendar
day; adjacent runs are separated by a non-one-day gap. -/
theorem chunkRuns_spec :
    ∀ l : List Date,
      (chunkRuns l).flatten = l
      ∧ (∀ c ∈ chunkRuns l, c ≠ [] ∧ List.Chain' stepRel c)
      ∧ List.Chain' breakRel (chunkRuns l) := by
  intro l
  induction l with
  | nil => exact ⟨rfl, by simp [chunkRuns], by simp [chunkRuns]⟩
  | cons d l' ih =>
    cases l' with
    | nil =>
      refine ⟨rfl, ?_, ?_⟩
      · intro c hc
        have : c = [d] := by simpa [chunkRuns] using hc
        rw [this]
        exact ⟨by simp, by simp⟩
      · show List.Chain' breakRel [[d]]
        simp
    | cons d2 rest =>
      obtain ⟨ih1, ih2, ih3⟩ := ih
      obtain ⟨c2, cs2, hm, hh⟩ := chunkRuns_cons_structure rest d2
      rw [hm] at ih1 ih2 ih3
      obtain ⟨t, hc2⟩ : ∃ t, c2 = d2 :: t := by
        cases c2 with
        | nil => simp at hh
        | cons e t =>
          simp only [List.head?_cons, Option.some.injEq] at hh
          exact ⟨t, by rw [hh]⟩
      have hck : chunkRuns (d :: d2 :: rest) =
          if rataDie d2 = rataDie d + 1 then (d :: c2) :: cs2
          else [d] :: c2 :: cs2 := by
        show (match chunkRuns (d2 :: rest) with
          | [] => [[d]]
          | c :: cs =>
            if rataDie d2 = rataDie d + 1 then (d :: c) :: cs else [d] :: c :: cs)
          = _
        rw [hm]
      by_cases hd : rataDie d2 = rataDie d + 1
      · rw [hck, if_pos hd]
        refine ⟨?_, ?_, ?_⟩
        · simp only [List.flatten_cons] at ih1 ⊢
          rw [List.cons_append, ih1]
        · intro c hc
          rcases List.mem_cons.mp hc with hc1 | hc1
          · rw [hc1, hc2]
            refine ⟨by simp, ?_⟩
            rw [List.chain'_cons]
            have := (ih2 c2 (List.mem_cons_self _ _)).2
            rw [hc2] at this
            exact ⟨hd, this⟩
          · exact ih2 c (List.mem_cons_of_mem _ hc1)
        · cases cs2 with
          | nil => simp
          | cons c3 cs3 =>
            rw [List.chain'_cons]
            have h3 := List.chain'_cons.mp ih3
            refine ⟨?_, h3.2⟩
            unfold breakRel at h3 ⊢
            rw [hc2] at h3 ⊢
            rw [List.getLast?_cons_cons]
            exact h3.1
      · rw [hck, if_neg hd]
        refine ⟨?_, ?_, ?_⟩
        · simp only [List.flatten_cons] at ih1 ⊢
          rw [List.singleton_append, ih1]
        · intro c hc
          rcases List.mem_cons.mp hc with hc1 | hc1
          · rw [hc1]
            exact ⟨by simp, by simp⟩
          · exact ih2 c hc1
        · rw [List.chain'_cons]
          refine ⟨?_, ih3⟩
          unfold breakRel stepRel
          rw [hc2]
          simpa using hd

theorem foldl_max_le :
    ∀ (l : List Nat) (a : Nat),
      (∀ x ∈ l, x ≤ l.foldl Nat.max a) ∧ a ≤ l.foldl Nat.max a := by
  intro l
  induction l with
  | nil => intro a; exact ⟨by simp, by simp⟩
  | cons b t ih =>
    intro a
    simp only [List.foldl_cons]
    obtain ⟨h1, h2⟩ := ih (Nat.max a b)
    refine ⟨?_, le_trans (Nat.le_max_left a b) h2⟩
    intro x hx
    rcases List.mem_cons.mp hx with hx | hx
    · subst hx
      exact le_trans (Nat.le_max_right a x) h2
    · exact h1 x hx

theorem foldl_max_attained :
    ∀ (l : List Nat) (a : Nat),
      l.foldl Nat.max a = a ∨ ∃ x ∈ l, l.foldl Nat.max a = x := by
  intro l
  induction l with
  | nil => intro a; left; rfl
  | cons b t ih =>
    intro a
    simp only [List.foldl_cons]
    rcases ih (Nat.max a b) with h | ⟨x, hx, hr⟩
    · have hm : Nat.max a b = a ∨ Nat.max a b = b := by
        rcases Nat.le_total a b with hab | hab
        · right; exact Nat.max_eq_right hab
        · left; exact Nat.max_eq_left hab
      rcases hm with hm | hm
      · left; rw [h, hm]
      · right; exact ⟨b, List.mem_cons_self b t, by rw [h, hm]⟩
    · right; exact ⟨x, List.mem_cons_of_mem b hx, hr⟩

/-- The longest-streak selection: on a nonempty date list the reported
streak is a run of the decomposition, its length is maximal among all runs,
and the reported start and end dates are the run's first and last date. -/
theorem longestStreakOf_spec (dates : List Date) (hne : dates ≠ []) :
    ∃ c ∈ chunkRuns dates,
      longestStreakOf dates =
        some (c.length, c.head?.getD dummyDate, c.getLast?.getD dummyDate)
      ∧ ∀ c2 ∈ chunkRuns dates, c2.length ≤ c.length := by
  obtain ⟨d, l', rfl⟩ := List.exists_cons_of_ne_nil hne
  obtain ⟨c0, cs0, hm, hh⟩ := chunkRuns_cons_structure l' d
  have hle := foldl_max_le ((chunkRuns (d :: l')).map List.length) 0
  have hatt := foldl_max_attained ((chunkRuns (d :: l')).map List.length) 0
  have hc0ne : c0 ≠ [] := by
    intro hnil
    rw [hnil] at hh
    simp at hh
  have hc0mem : c0.length ∈ (chunkRuns (d :: l')).map List.length := by
    rw [hm]
    simp
  have hc0pos : 1 ≤ c0.length := List.length_pos.mpr hc0ne
  have hmaxpos : 1 ≤ maxRunLen (chunkRuns (d :: l')) :=
    le_trans hc0pos (hle.1 _ hc0mem)
  rcases hatt with h0 | ⟨x, hx, hfx⟩
  · unfold maxRunLen at hmaxpos
    rw [h0] at hmaxpos
    omega
  · rw [List.mem_map] at hx
    obtain ⟨c, hcmem, hclen⟩ := hx
    have hfind : ∃ cc ∈ chunkRuns (d :: l'),
        (fun c => decide (c.length = maxRunLen (chunkRuns (d :: l')))) cc = true := by
      refine ⟨c, hcmem, ?_⟩
      rw [decide_eq_true_eq]
      unfold maxRunLen
      rw [hfx, hclen]
    have hsome := List.find?_isSome.mpr hfind
    obtain ⟨cfound, hfound⟩ := Option.isSome_iff_exists.mp hsome
    refine ⟨cfound, List.mem_of_find?_eq_some hfound, ?_, ?_⟩
    · unfold longestStreakOf
      rw [hfound]
    · intro c2 hc2
      have hlen : cfound.length = maxRunLen (chunkRuns (d :: l')) := by
        have := List.find?_some hfound
        rwa [decide_eq_true_eq] at this
      rw [hlen]
      unfold maxRunLen
      exact hle.1 _ (List.mem_map.mpr ⟨c2, hc2, rfl⟩)

theorem snowDates_of_addSeason (df : DailySeries) :
    ((addSeason df).filter (fun r => decide (0 < r.2.1))).map (fun r => r.1) =
      snowDates df := by
  unfold addSeason snowDates
  rw [List.filter_map, List.map_map]
  rfl

/-- The testable-property series of the spec: snow on Dec 1-5 2020, a
zero-depth gap on Dec 6, snow on Dec 7-10. -/
def streakExampleSeries : DailySeries :=
  [(Date.mk 2020 12 1, 1), (Date.mk 2020 12 2, 1), (Date.mk 2020 12 3, 1),
   (Date.mk 2020 12 4, 1), (Date.mk 2020 12 5, 1), (Date.mk 2020 12 6, 0),
   (Date.mk 2020 12 7, 1), (Date.mk 2020 12 8, 1), (Date.mk 2020 12 9, 1),
   (Date.mk 2020 12 10, 1)]

/-- The record set the engine computes from `streakExampleSeries`. -/
def streakExampleRecords : SnowRecords where
  top10Max := [("2020/2021", 1)]
  top10EarliestStart := [("2020/2021", Date.mk 2020 12 1)]
  top10LatestStart := [("2020/2021", Date.mk 2020 12 1)]
  top10EarliestEnd := [("2020/2021", Date.mk 2020 12 10)]
  top10LatestEnd := [("2020/2021", Date.mk 2020 12 10)]
  top10MostDays := [("2020/2021", 9)]
  longestStreak := some (5, Date.mk 2020 12 1, Date.mk 2020 12 5)
  totalSnowDays := 9

/-- C6: whenever the engine returns a record set, the snow days (depth > 0)
over the whole span decompose into maximal runs of consecutive calendar
dates — the runs concatenate back to the snow-day dates, each run steps by
exactly one calendar day internally, adjacent runs are separated by a
non-one-day gap — and the reported longest streak is the length, first and
last date of a run of maximal length.  A one-day step in the linear day
count is exactly a calendar-successor step, and on the concrete series with
snow on 2020-12-01..05, none on 12-06, snow on 12-07..10, the engine
reports the first run with length 5. -/
theorem longestStreak_claim (df : DailySeries) (r : SnowRecords)
    (h : calculateSnowRecords df = some r) :
    (chunkRuns (snowDates df)).flatten = snowDates df
    ∧ (∀ c ∈ chunkRuns (snowDates df), c ≠ [] ∧ List.Chain' stepRel c)
    ∧ List.Chain' breakRel (chunkRuns (snowDates df))
    ∧ (∃ c ∈ chunkRuns (snowDates df),
        r.longestStreak =
          some (c.length, c.head?.getD dummyDate, c.getLast?.getD dummyDate)
        ∧ ∀ c2 ∈ chunkRuns (snowDates df), c2.length ≤ c.length)
    ∧ (∀ a b : Date, a.Valid → b.Valid → (stepRel a b ↔ b = nextDate a))
    ∧ (calculateSnowRecords streakExampleSeries).map SnowRecords.longestStreak =
        some (some (5, Date.mk 2020 12 1, Date.mk 2020 12 5)) := by
  obtain ⟨h1, h2, h3⟩ := chunkRuns_spec (snowDates df)
  refine ⟨h1, h2, h3, ?_, ?_, by decide⟩
  · unfold calculateSnowRecords calculateSnowRecordsTracked computeRecords seriesCopy at h
    simp only [] at h
    split at h
    · exact absurd h (by simp)
    · rename_i hemp
      have hinj := (Option.some.injEq _ _).mp h
      have hlsf : r.longestStreak = longestStreakOf (snowDates df) := by
        rw [← hinj]
        show longestStreakOf
          (((addSeason df).filter (fun r => decide (0 < r.2.1))).map (fun r => r.1)) = _
        rw [snowDates_of_addSeason]
      have hne : snowDates df ≠ [] := by
        rw [← snowDates_of_addSeason df]
        intro hnil
        rw [List.map_eq_nil_iff] at hnil
        rw [List.isEmpty_iff] at hemp
        exact hemp hnil
      obtain ⟨c, hcmem, heq, hmax⟩ := longestStreakOf_spec (snowDates df) hne
      exact ⟨c, hcmem, by rw [hlsf]; exact heq, hmax⟩
  · intro a b va vb
    constructor
    · exact fun hstep => nextDate_of_rataDie_succ va vb hstep
    · intro hnext
      rw [hnext]
      exact rataDie_nextDate va

/-- C6 witness: the theorem applied to the concrete gap series, with its
full record set checked explicitly. -/
theorem longestStreak_claim_witness :
    calculateSnowRecords streakExampleSeries = some streakExampleRecords
    ∧ ((chunkRuns (snowDates streakExampleSeries)).flatten = snowDates streakExampleSeries
    ∧ (∀ c ∈ chunkRuns (snowDates streakExampleSeries), c ≠ [] ∧ List.Chain' stepRel c)
    ∧ List.Chain' breakRel (chunkRuns (snowDates streakExampleSeries))
    ∧ (∃ c ∈ chunkRuns (snowDates streakExampleSeries),
        streakExampleRecords.longestStreak =
          some (c.length, c.head?.getD dummyDate, c.getLast?.getD dummyDate)
        ∧ ∀ c2 ∈ chunkRuns (snowDates streakExampleSeries), c2.length ≤ c.length)
    ∧ (∀ a b : Date, a.Valid → b.Valid → (stepRel a b ↔ b = nextDate a))
    ∧ (calculateSnowRecords streakExampleSeries).map SnowRecords.longestStreak =
        some (some (5, Date.mk 2020 12 1, Date.mk 2020 12 5))) :=
  ⟨by decide, longestStreak_claim streakExampleSeries streakExampleRecords (by decide)⟩

-- ### The chunked fetch loop (`get_all_historical_data`, C8)

/-- A per-chunk daily frame keyed by linear day number: `datetime.date`
values and their `timedelta` arithmetic are represented by day numbers, so
`current_start + timedelta(days=n)` is `cur + n`. -/
abbrev DayFrame := List (Int × ℚ)

/-- The chunk end the loop computes:
`min(current_start + timedelta(days=chunk_size_years*365 + 10), end_date)`
(src/sneeuwhistorie.py:89-92). -/
def chunkEnd (csy : Nat) (cur fin : Int) : Int :=
  min (cur + ((csy * 365 + 10 : Nat) : Int)) fin

/-- The successive chunk intervals the `while current_start <= end_date`
loop of `get_all_historical_data` requests: each chunk runs from the
current start to `chunkEnd`; the loop breaks when the chunk reaches the end
date and otherwise continues the day after the chunk end. -/
def chunkIntervals (csy : Nat) (cur fin : Int) : List (Int × Int) :=
  if h1 : fin < cur then []
  else
    (cur, chunkEnd csy cur fin) ::
      (if h2 : chunkEnd csy cur fin = fin then []
       else chunkIntervals csy (chunkEnd csy cur fin + 1) fin)
termination_by (fin + 1 - cur).toNat
decreasing_by
  have hk : (0 : Int) ≤ ((csy * 365 + 10 : Nat) : Int) := Int.ofNat_nonneg _
  unfold chunkEnd at *
  omega

/-- The fetch loop of `get_all_historical_data` (src/sneeuwhistorie.py:
84-107): fetch each chunk, keep the frame when the fetch succeeds
(`if chunk_df is not None: all_data_frames.append(chunk_df)`), and continue
past failed chunks. -/
def fetchChunks (fetch : Int → Int → Option DayFrame) (csy : Nat)
    (cur fin : Int) : List DayFrame :=
  if h1 : fin < cur then []
  else
    (match fetch cur (chunkEnd csy cur fin) with
     | some f => [f]
     | none => [])
    ++ (if h2 : chunkEnd csy cur fin = fin then []
        else fetchChunks fetch csy (chunkEnd csy cur fin + 1) fin)
termination_by (fin + 1 - cur).toNat
decreasing_by
  have hk : (0 : Int) ≤ ((csy * 365 + 10 : Nat) : Int) := Int.ofNat_nonneg _
  unfold chunkEnd at *
  omega

/-- `get_all_historical_data` after its date-string parsing: run the chunk
loop; if no chunk succeeded report failure (`None`), otherwise concatenate
the collected frames (`pd.concat`) and drop duplicate dates keeping the
first occurrence (`combined_df[~combined_df.index.duplicated(keep='first')]`). -/
def getAllHistoricalData (fetch : Int → Int → Option DayFrame) (csy : Nat)
    (s e : Int) : Option DayFrame :=
  let frames := fetchChunks fetch csy s e
  if frames = [] then none
  else some (dedupByKey Prod.fst frames.flatten)

/-- Modelled from the spec's words (the chunk-coverage contract of the
builder): a chunk list covers the inclusive range [s, e] when the first
chunk starts at `s`, every chunk is nonempty, each later chunk starts the
day after the previous one ends, and the last chunk ends exactly at `e`. -/
def IntervalsCover (s e : Int) : List (Int × Int) → Prop
  | [] => False
  | [(a, b)] => a = s ∧ a ≤ b ∧ b = e
  | (a, b) :: iv :: rest => a = s ∧ a ≤ b ∧ IntervalsCover (b + 1) e (iv :: rest)

theorem fetchChunks_eq_filterMap_aux (fetch : Int → Int → Option DayFrame)
    (csy : Nat) :
    ∀ (n : Nat) (cur fin : Int), (fin + 1 - cur).toNat ≤ n →
      fetchChunks fetch csy cur fin =
        (chunkIntervals csy cur fin).filterMap (fun iv => fetch iv.1 iv.2) := by
  intro n
  induction n with
  | zero =>
    intro cur fin hb
    have h1 : fin < cur := by omega
    rw [fetchChunks, chunkIntervals, dif_pos h1, dif_pos h1]
    rfl
  | succ k ih =>
    intro cur fin hb
    by_cases h1 : fin < cur
    · rw [fetchChunks, chunkIntervals, dif_pos h1, dif_pos h1]
      rfl
    · rw [fetchChunks, chunkIntervals, dif_neg h1, dif_neg h1]
      by_cases h2 : chunkEnd csy cur fin = fin
      · rw [dif_pos h2, dif_pos h2]
        rcases hf : fetch cur (chunkEnd csy cur fin) with _ | f <;>
          simp [List.filterMap_cons, hf]
      · rw [dif_neg h2, dif_neg h2]
        have hdec : ((fin + 1 - (chunkEnd csy cur fin + 1)).toNat) ≤ k := by
          have hk : (0 : Int) ≤ ((csy * 365 + 10 : Nat) : Int) := Int.ofNat_nonneg _
          unfold chunkEnd at *
          omega
        rw [ih (chunkEnd csy cur fin + 1) fin hdec]
        rcases hf : fetch cur (chunkEnd csy cur fin) with _ | f <;>
          simp [List.filterMap_cons, hf]

theorem fetchChunks_eq_filterMap (fetch : Int → Int → Option DayFrame)
    (csy : Nat) (cur fin : Int) :
    fetchChunks fetch csy cur fin =
      (chunkIntervals csy cur fin).filterMap (fun iv => fetch iv.1 iv.2) :=
  fetchChunks_eq_filterMap_aux fetch csy ((fin + 1 - cur).toNat) cur fin (le_refl _)

theorem chunkIntervals_ne_nil (csy : Nat) (cur fin : Int) (h : cur ≤ fin) :
    chunkIntervals csy cur fin ≠ [] := by
  rw [chunkIntervals, dif_neg (by omega : ¬ fin < cur)]
  simp

theorem chunkIntervals_cover_aux (csy : Nat) :
    ∀ (n : Nat) (cur fin : Int), (fin + 1 - cur).toNat ≤ n → cur ≤ fin →
      IntervalsCover cur fin (chunkIntervals csy cur fin) := by
  intro n
  induction n with
  | zero =>
    intro cur fin hb hle
    omega
  | succ k ih =>
    intro cur fin hb hle
    have hnn : ¬ fin < cur := by omega
    rw [chunkIntervals, dif_neg hnn]
    have hk : (0 : Int) ≤ ((csy * 365 + 10 : Nat) : Int) := Int.ofNat_nonneg _
    have hcb1 : cur ≤ chunkEnd csy cur fin := by unfold chunkEnd; omega
    have hcb2 : chunkEnd csy cur fin ≤ fin := by unfold chunkEnd; omega
    by_cases h2 : chunkEnd csy cur fin = fin
    · rw [dif_pos h2]
      exact ⟨rfl, hcb1, h2⟩
    · rw [dif_neg h2]
      have hrec := ih (chunkEnd csy cur fin + 1) fin (by omega) (by omega)
      obtain ⟨iv, rest, hshape⟩ :=
        List.exists_cons_of_ne_nil
          (chunkIntervals_ne_nil csy (chunkEnd csy cur fin + 1) fin (by omega))
      rw [hshape] at hrec ⊢
      exact ⟨rfl, hcb1, hrec⟩

theorem chunkIntervals_cover (csy : Nat) (cur fin : Int) (h : cur ≤ fin) :
    IntervalsCover cur fin (chunkIntervals csy cur fin) :=
  chunkIntervals_cover_aux csy ((fin + 1 - cur).toNat) cur fin (le_refl _) h

theorem find?_dedupByKeyAux_first {α κ : Type} [DecidableEq κ] (key : α → κ)
    (k : κ) :
    ∀ (l : List α) (seen : List κ), k ∉ seen →
      (dedupByKeyAux key seen l).find? (fun p => decide (key p = k)) =
        l.find? (fun p => decide (key p = k)) := by
  intro l
  induction l with
  | nil => intro seen _; rfl
  | cons x xs ih =>
    intro seen hk
    unfold dedupByKeyAux
    by_cases hx : key x ∈ seen
    · rw [if_pos hx]
      have hne : ¬ ((fun p => decide (key p = k)) x = true) := by
        simp only [decide_eq_true_eq]
        intro he
        rw [he] at hx
        exact hk hx
      rw [@List.find?_cons_of_neg _ (fun p => decide (key p = k)) x xs hne]
      exact ih seen hk
    · rw [if_neg hx]
      by_cases hxk : key x = k
      · have hpos : (fun p => decide (key p = k)) x = true := by simp [hxk]
        rw [@List.find?_cons_of_pos _ (fun p => decide (key p = k)) x
            (dedupByKeyAux key (key x :: seen) xs) hpos,
          @List.find?_cons_of_pos _ (fun p => decide (key p = k)) x xs hpos]
      · have hneg : ¬ ((fun p => decide (key p = k)) x = true) := by simp [hxk]
        rw [@List.find?_cons_of_neg _ (fun p => decide (key p = k)) x
            (dedupByKeyAux key (key x :: seen) xs) hneg,
          @List.find?_cons_of_neg _ (fun p => decide (key p = k)) x xs hneg]
        refine ih (key x :: seen) ?_
        intro hmem
        rcases List.mem_cons.mp hmem with hmm | hmm
        · exact hxk hmm.symm
        · exact hk hmm

theorem find?_dedupByKey_first {α κ : Type} [DecidableEq κ] (key : α → κ)
    (k : κ) (l : List α) :
    (dedupByKey key l).find? (fun p => decide (key p = k)) =
      l.find? (fun p => decide (key p = k)) :=
  find?_dedupByKeyAux_first key k l [] (by simp)

/-- C8: the builder splits the inclusive request range into successive
chunks covering it; a failed chunk fetch does not abort the loop; the
overall result is the failure `none` exactly when every chunk fetch fails;
otherwise it is the concatenation of the successful chunks with duplicate
dates removed, keeping the first-seen value (the first occurrence of each
date is exactly what a lookup finds in the deduplicated frame). -/
theorem getAllHistoricalData_spec (fetch : Int → Int → Option DayFrame)
    (csy : Nat) (s e : Int) :
    (getAllHistoricalData fetch csy s e = none ↔
      ∀ iv ∈ chunkIntervals csy s e, fetch iv.1 iv.2 = none)
    ∧ (∀ df, getAllHistoricalData fetch csy s e = some df →
        df = dedupByKey Prod.fst
          (((chunkIntervals csy s e).filterMap (fun iv => fetch iv.1 iv.2)).flatten))
    ∧ (s ≤ e → IntervalsCover s e (chunkIntervals csy s e))
    ∧ (∀ (l : DayFrame) (k : Int),
        (dedupByKey Prod.fst l).find? (fun p => decide (p.1 = k)) =
          l.find? (fun p => decide (p.1 = k))) := by
  refine ⟨?_, ?_, chunkIntervals_cover csy s e, ?_⟩
  · unfold getAllHistoricalData
    rw [fetchChunks_eq_filterMap]
    simp only []
    constructor
    · intro h
      split at h
      · rename_i hemp
        rwa [List.filterMap_eq_nil_iff] at hemp
      · exact absurd h (by simp)
    · intro h
      rw [if_pos (List.filterMap_eq_nil_iff.mpr h)]
  · intro df h
    unfold getAllHistoricalData at h
    rw [fetchChunks_eq_filterMap] at h
    simp only [] at h
    split at h
    · exact absurd h (by simp)
    · exact ((Option.some.injEq _ _).mp h).symm
  · intro l k
    exact find?_dedupByKey_first Prod.fst k l
